import Mathlib

/-!
Shallow embedding of `src/list_shared_files_and_folders.js`, a Google Apps
Script that iterates over all folders and files of a Google Drive and writes
the shared ones to a spreadsheet.  The iteration is a stack-based resumable
depth-first traversal: each stack entry (`Frame`) holds a folder name and two
continuation tokens (one for the folder's file pagination, one for its
subfolder pagination).  The stack is persisted as JSON between script runs.

Modelling conventions:
- A Drive continuation token is modelled by the list of elements the iterator
  has not yet produced; `hasNext` corresponds to that list being nonempty and
  `getContinuationToken` after `next` corresponds to the tail.  A `null` token
  field is `Option.none`.
- The JavaScript value universe reachable by `JSON.parse`/`JSON.stringify`
  is modelled by the inductive `JVal`; `JSON.stringify` of the iterator array
  is `serializeStack`, and reading the parsed value back as a frame array is
  `deserializeStack`.
- The spreadsheet side effects (appended rows, the `B3` iteration-finished
  cell) and the single user-property slot are modelled as explicit state
  (`RunState`) threaded through the run loop.
- `Session.getEffectiveUser().getEmail()` is passed as the explicit parameter
  `effectiveUserMail`.
- A thrown JavaScript exception is `Except.error` with the thrown message.
-/

/-- The values of the `DriveApp.Access` enum. -/
inductive Access where
  | ANYONE
  | ANYONE_WITH_LINK
  | DOMAIN
  | DOMAIN_WITH_LINK
  | PRIVATE
deriving DecidableEq, Repr

/-- The sharing-related attributes of a Drive item (file or folder) consulted
by `getSharingAccess`: `getSharingAccess()`, `getOwner().getEmail()`,
`getViewers()` and `getEditors()` (each reduced to the member emails). -/
structure Sharing where
  access : Access
  ownerEmail : String
  viewerEmails : List String
  editorEmails : List String
deriving DecidableEq, Repr

/-- A Drive file: its name and its sharing attributes. -/
structure DriveFile where
  name : String
  sharing : Sharing
deriving DecidableEq, Repr

/-- A Drive folder: name, sharing attributes, contained files and subfolders
(in iterator order). -/
inductive DriveFolder where
  | mk (name : String) (sharing : Sharing) (files : List DriveFile)
      (folders : List DriveFolder)

/-- The folder's name (`folder.getName()`). -/
def DriveFolder.name : DriveFolder → String
  | .mk n _ _ _ => n

/-- The folder's sharing attributes. -/
def DriveFolder.sharing : DriveFolder → Sharing
  | .mk _ s _ _ => s

/-- The folder's files in iterator order (`folder.getFiles()`). -/
def DriveFolder.files : DriveFolder → List DriveFile
  | .mk _ _ fs _ => fs

/-- The folder's subfolders in iterator order (`folder.getFolders()`). -/
def DriveFolder.folders : DriveFolder → List DriveFolder
  | .mk _ _ _ ds => ds

/-- `getSharingAccess(item)` from the source: an item is `"Private"` iff its
access level is `PRIVATE`, its owner is the effective user, and every viewer
and every editor is the effective user; otherwise `"Shared"`. -/
def getSharingAccess (effectiveUserMail : String) (item : Sharing) : String :=
  if item.access = Access.PRIVATE then
    if item.ownerEmail ≠ effectiveUserMail then
      "Shared" -- Others have access
    else if item.viewerEmails.any (fun v => v ≠ effectiveUserMail) then
      "Shared" -- Others have access
    else if item.editorEmails.any (fun e => e ≠ effectiveUserMail) then
      "Shared" -- Others have access
    else
      "Private" -- Only you have access
  else
    "Shared" -- Access is not set to PRIVATE, so it's shared

/-- One entry of the recursive iterator array:
`{folderName: String, fileIteratorContinuationToken: String?,
folderIteratorContinuationToken: String}`.  Continuation tokens are modelled
by the remaining elements of the corresponding iterator. -/
structure Frame where
  folderName : String
  fileIteratorContinuationToken : Option (List DriveFile)
  folderIteratorContinuationToken : Option (List DriveFolder)

/-- `makeIterationFromFolder(folder)` from the source. -/
def makeIterationFromFolder (folder : DriveFolder) : Frame :=
  { folderName := folder.name
    fileIteratorContinuationToken := some folder.files
    folderIteratorContinuationToken := some folder.folders }

/-- One row appended to the report sheet:
`[path + name, "File" | "Folder", access]`. -/
structure Record where
  pathName : String
  itemType : String
  access : String
deriving DecidableEq, Repr

/-- `listFilesAndFolders(recursiveIterator, sheet)` from the source: one step
of the traversal.  The currently active frame is the last array entry.  The
returned value is the updated iterator array together with the rows appended
to the sheet during this step (zero or one).  A thrown exception is
`Except.error`. -/
def listFilesAndFolders (effectiveUserMail : String)
    (recursiveIterator : List Frame) :
    Except String (List Frame × List Record) :=
  match recursiveIterator.getLast? with
  | none =>
    -- JS: `recursiveIterator[recursiveIterator.length-1]` is `undefined`;
    -- the following field access throws a TypeError.
    .error "TypeError: recursiveIterator is empty"
  | some currentIteration =>
    match currentIteration.fileIteratorContinuationToken with
    | some fileIterator =>
      match fileIterator with
      | file :: rest =>
        -- Process the next file
        let path := String.intercalate "/"
          (recursiveIterator.map (fun iteration => iteration.folderName))
        let access := getSharingAccess effectiveUserMail file.sharing
        let rows := if access ≠ "Private" then
            [⟨path ++ file.name, "File", access⟩] else []
        .ok (recursiveIterator.dropLast ++
          [{ currentIteration with fileIteratorContinuationToken := some rest }],
          rows)
      | [] =>
        -- Done processing files
        .ok (recursiveIterator.dropLast ++
          [{ currentIteration with fileIteratorContinuationToken := none }], [])
    | none =>
      match currentIteration.folderIteratorContinuationToken with
      | some folderIterator =>
        match folderIterator with
        | folder :: rest =>
          -- Process the next folder
          let path := String.intercalate "/"
            (recursiveIterator.map (fun iteration => iteration.folderName))
          let access := getSharingAccess effectiveUserMail folder.sharing
          let rows := if access ≠ "Private" then
              [⟨path ++ folder.name, "Folder", access⟩] else []
          .ok ((recursiveIterator.dropLast ++
            [{ currentIteration with
                folderIteratorContinuationToken := some rest }]) ++
            [makeIterationFromFolder folder],
            rows)
        | [] =>
          -- Done processing subfolders
          .ok (recursiveIterator.dropLast, [])
      | none =>
        .error "Should never get here. Iterator failure!"

/-- Iterate `listFilesAndFolders` a given number of times, collecting all
appended rows in order. -/
def runSteps (effectiveUserMail : String) :
    Nat → List Frame → Except String (List Frame × List Record)
  | 0, stack => .ok (stack, [])
  | n + 1, stack =>
    match listFilesAndFolders effectiveUserMail stack with
    | .error e => .error e
    | .ok (s1, r1) =>
      match runSteps effectiveUserMail n s1 with
      | .error e => .error e
      | .ok (s2, r2) => .ok (s2, r1 ++ r2)

mutual

/-- Decidable equality for `DriveFolder` (the `deriving` handler does not
support this nested inductive). -/
def DriveFolder.decEq : (a b : DriveFolder) → Decidable (a = b)
  | .mk n1 s1 f1 d1, .mk n2 s2 f2 d2 =>
    if hn : n1 = n2 then
      if hs : s1 = s2 then
        if hf : f1 = f2 then
          match DriveFolder.decEqList d1 d2 with
          | isTrue hd => isTrue (by rw [hn, hs, hf, hd])
          | isFalse hd => isFalse (fun h => by injection h; exact hd (by assumption))
        else isFalse (fun h => by injection h; exact hf (by assumption))
      else isFalse (fun h => by injection h; exact hs (by assumption))
    else isFalse (fun h => by injection h; exact hn (by assumption))

/-- Decidable equality for lists of `DriveFolder`. -/
def DriveFolder.decEqList : (a b : List DriveFolder) → Decidable (a = b)
  | [], [] => isTrue rfl
  | [], _ :: _ => isFalse (fun h => by injection h)
  | _ :: _, [] => isFalse (fun h => by injection h)
  | a :: as, b :: bs =>
    match DriveFolder.decEq a b, DriveFolder.decEqList as bs with
    | isTrue h1, isTrue h2 => isTrue (by rw [h1, h2])
    | isFalse h1, _ => isFalse (fun h => by injection h; exact h1 (by assumption))
    | _, isFalse h2 => isFalse (fun h => by injection h; exact h2 (by assumption))

end

instance : DecidableEq DriveFolder := DriveFolder.decEq

instance : DecidableEq (List DriveFolder) := DriveFolder.decEqList

instance : DecidableEq Frame := fun a b => by
  cases a; cases b
  exact decidable_of_iff _ (Iff.of_eq (Frame.mk.injEq _ _ _ _ _ _)).symm

mutual

/-- The number of `listFilesAndFolders` steps needed to fully drain the frame
of a folder: one step per file, one step exhausting the file iterator, one
step per subfolder (discovery/push), the steps of each subfolder's subtree,
and one final pop step. -/
def treeSteps : DriveFolder → Nat
  | .mk _ _ files folders =>
    files.length + 1 + treeStepsList folders + folders.length + 1

/-- Sum of `treeSteps` over a list of folders. -/
def treeStepsList : List DriveFolder → Nat
  | [] => 0
  | t :: ts => treeSteps t + treeStepsList ts

end

mutual

/-- The rows the traversal appends while draining a folder whose ancestor
frame names are `ancestors`: first the shared files of the folder, then for
each subfolder its discovery row (if shared) followed by its whole subtree.
The path prefix of an entry is the `/`-join of the frame names on the stack
at the time the entry is appended. -/
def emitTree (effectiveUserMail : String) (ancestors : List String) :
    DriveFolder → List Record
  | .mk name _ files folders =>
    let names := ancestors ++ [name]
    let path := String.intercalate "/" names
    files.filterMap (fun file =>
      let access := getSharingAccess effectiveUserMail file.sharing
      if access ≠ "Private" then some ⟨path ++ file.name, "File", access⟩
      else none)
    ++ emitChildren effectiveUserMail names folders

/-- The rows appended while enumerating the remaining subfolders of a frame
whose stack names are `names`: each subfolder's discovery row (if shared)
followed by the rows of its entire subtree. -/
def emitChildren (effectiveUserMail : String) (names : List String) :
    List DriveFolder → List Record
  | [] => []
  | folder :: rest =>
    let path := String.intercalate "/" names
    let access := getSharingAccess effectiveUserMail folder.sharing
    (if access ≠ "Private" then [⟨path ++ folder.name, "Folder", access⟩]
     else [])
    ++ emitTree effectiveUserMail names folder
    ++ emitChildren effectiveUserMail names rest

end

mutual

/-- Number of steps taken in the file-iterator branch of
`listFilesAndFolders` over a whole subtree: one per file plus the one call
that finds no further file and sets the token to `null`. -/
def leafPageAdvances : DriveFolder → Nat
  | .mk _ _ files folders => files.length + 1 + leafPageAdvancesList folders

/-- Sum of `leafPageAdvances` over a list of folders. -/
def leafPageAdvancesList : List DriveFolder → Nat
  | [] => 0
  | t :: ts => leafPageAdvances t + leafPageAdvancesList ts

end

mutual

/-- Number of steps taken in the folder-iterator branch of
`listFilesAndFolders` that discover a subfolder (and push a frame), over a
whole subtree. -/
def childPageAdvances : DriveFolder → Nat
  | .mk _ _ _ folders => folders.length + childPageAdvancesList folders

/-- Sum of `childPageAdvances` over a list of folders. -/
def childPageAdvancesList : List DriveFolder → Nat
  | [] => 0
  | t :: ts => childPageAdvances t + childPageAdvancesList ts

end

mutual

/-- Number of steps taken in the folder-iterator branch of
`listFilesAndFolders` that find no further subfolder and pop the frame, over
a whole subtree: exactly one per container. -/
def popOps : DriveFolder → Nat
  | .mk _ _ _ folders => 1 + popOpsList folders

/-- Sum of `popOps` over a list of folders. -/
def popOpsList : List DriveFolder → Nat
  | [] => 0
  | t :: ts => popOps t + popOpsList ts

end

/-- The remaining number of traversal steps a single frame stands for. -/
def frameWeight (fr : Frame) : Nat :=
  (match fr.fileIteratorContinuationToken with
   | some files => files.length + 1
   | none => 0) +
  (match fr.folderIteratorContinuationToken with
   | some folders => treeStepsList folders + folders.length + 1
   | none => 0)

/-- The remaining number of traversal steps an iterator stack stands for. -/
def stackWeight (stack : List Frame) : Nat :=
  (stack.map frameWeight).sum

/-- The JSON value universe reachable by `JSON.parse`/`JSON.stringify` as
used by the script (strings, `null`, arrays and objects suffice for the
persisted iterator). -/
inductive JVal where
  | jnull
  | jstr (s : String)
  | jarr (xs : List JVal)
  | jobj (fields : List (String × JVal))

/-- `JSON.stringify` image of an `Access` value. -/
def accessToJson (a : Access) : JVal :=
  match a with
  | .ANYONE => .jstr "ANYONE"
  | .ANYONE_WITH_LINK => .jstr "ANYONE_WITH_LINK"
  | .DOMAIN => .jstr "DOMAIN"
  | .DOMAIN_WITH_LINK => .jstr "DOMAIN_WITH_LINK"
  | .PRIVATE => .jstr "PRIVATE"

/-- Inverse of `accessToJson`. -/
def accessFromJson : JVal → Option Access
  | .jstr "ANYONE" => some .ANYONE
  | .jstr "ANYONE_WITH_LINK" => some .ANYONE_WITH_LINK
  | .jstr "DOMAIN" => some .DOMAIN
  | .jstr "DOMAIN_WITH_LINK" => some .DOMAIN_WITH_LINK
  | .jstr "PRIVATE" => some .PRIVATE
  | _ => none

/-- Encode a list of email strings as a JSON array of strings. -/
def stringsToJson (xs : List String) : JVal :=
  .jarr (xs.map JVal.jstr)

/-- Decode a JSON array element list of strings. -/
def stringsFromJson : List JVal → Option (List String)
  | [] => some []
  | .jstr s :: rest =>
    match stringsFromJson rest with
    | some ss => some (s :: ss)
    | none => none
  | _ => none

/-- Encode the sharing attributes of an item. -/
def sharingToJson (s : Sharing) : JVal :=
  .jobj [("access", accessToJson s.access),
         ("ownerEmail", .jstr s.ownerEmail),
         ("viewerEmails", stringsToJson s.viewerEmails),
         ("editorEmails", stringsToJson s.editorEmails)]

/-- Inverse of `sharingToJson`. -/
def sharingFromJson : JVal → Option Sharing
  | .jobj [("access", a), ("ownerEmail", .jstr o),
           ("viewerEmails", .jarr vs), ("editorEmails", .jarr es)] =>
    match accessFromJson a, stringsFromJson vs, stringsFromJson es with
    | some acc, some viewers, some editors =>
      some ⟨acc, o, viewers, editors⟩
    | _, _, _ => none
  | _ => none

/-- Encode a Drive file. -/
def fileToJson (f : DriveFile) : JVal :=
  .jobj [("name", .jstr f.name), ("sharing", sharingToJson f.sharing)]

/-- Inverse of `fileToJson`. -/
def fileFromJson : JVal → Option DriveFile
  | .jobj [("name", .jstr n), ("sharing", s)] =>
    match sharingFromJson s with
    | some sh => some ⟨n, sh⟩
    | none => none
  | _ => none

/-- Decode a JSON array element list of Drive files. -/
def filesFromJson : List JVal → Option (List DriveFile)
  | [] => some []
  | j :: js =>
    match fileFromJson j, filesFromJson js with
    | some f, some fs => some (f :: fs)
    | _, _ => none

mutual

/-- Encode a Drive folder (the content a file-iterator or folder-iterator
continuation token stands for is encoded structurally). -/
def folderToJson : DriveFolder → JVal
  | .mk name sharing files folders =>
    .jobj [("name", .jstr name), ("sharing", sharingToJson sharing),
           ("files", .jarr (files.map fileToJson)),
           ("folders", .jarr (folderListToJson folders))]

/-- Encode a list of Drive folders element-wise. -/
def folderListToJson : List DriveFolder → List JVal
  | [] => []
  | t :: ts => folderToJson t :: folderListToJson ts

end

mutual

/-- Inverse of `folderToJson`. -/
def folderFromJson : JVal → Option DriveFolder
  | .jobj [("name", .jstr n), ("sharing", s), ("files", .jarr fs),
           ("folders", .jarr ds)] =>
    match sharingFromJson s, filesFromJson fs, folderListFromJson ds with
    | some sh, some files, some folders => some (.mk n sh files folders)
    | _, _, _ => none
  | _ => none

/-- Inverse of `folderListToJson`. -/
def folderListFromJson : List JVal → Option (List DriveFolder)
  | [] => some []
  | j :: js =>
    match folderFromJson j, folderListFromJson js with
    | some t, some ts => some (t :: ts)
    | _, _ => none

end

/-- Encode a nullable file-iterator continuation token. -/
def fileTokenToJson : Option (List DriveFile) → JVal
  | none => .jnull
  | some files => .jarr (files.map fileToJson)

/-- Inverse of `fileTokenToJson`. -/
def fileTokenFromJson : JVal → Option (Option (List DriveFile))
  | .jnull => some none
  | .jarr js =>
    match filesFromJson js with
    | some fs => some (some fs)
    | none => none
  | _ => none

/-- Encode a nullable folder-iterator continuation token. -/
def folderTokenToJson : Option (List DriveFolder) → JVal
  | none => .jnull
  | some folders => .jarr (folderListToJson folders)

/-- Inverse of `folderTokenToJson`. -/
def folderTokenFromJson : JVal → Option (Option (List DriveFolder))
  | .jnull => some none
  | .jarr js =>
    match folderListFromJson js with
    | some ds => some (some ds)
    | none => none
  | _ => none

/-- `JSON.stringify` image of one iterator frame
`{folderName, fileIteratorContinuationToken, folderIteratorContinuationToken}`;
a `null` token field is serialized as JSON `null`. -/
def frameToJson (fr : Frame) : JVal :=
  .jobj [("folderName", .jstr fr.folderName),
         ("fileIteratorContinuationToken",
           fileTokenToJson fr.fileIteratorContinuationToken),
         ("folderIteratorContinuationToken",
           folderTokenToJson fr.folderIteratorContinuationToken)]

/-- Read a parsed JSON value back as one iterator frame. -/
def frameFromJson : JVal → Option Frame
  | .jobj [("folderName", .jstr n), ("fileIteratorContinuationToken", ft),
           ("folderIteratorContinuationToken", dt)] =>
    match fileTokenFromJson ft, folderTokenFromJson dt with
    | some fileTok, some folderTok => some ⟨n, fileTok, folderTok⟩
    | _, _ => none
  | _ => none

/-- Decode a JSON array element list of frames. -/
def framesFromJson : List JVal → Option (List Frame)
  | [] => some []
  | j :: js =>
    match frameFromJson j, framesFromJson js with
    | some fr, some frs => some (fr :: frs)
    | _, _ => none

/-- `JSON.stringify(recursiveIterator)` from `main`: the persisted checkpoint
blob for an iterator stack. -/
def serializeStack (stack : List Frame) : JVal :=
  .jarr (stack.map frameToJson)

/-- Reading a parsed checkpoint value back as the iterator stack
(`JSON.parse` in `prepareIteration` followed by the script's untyped field
accesses, which require exactly this structure). -/
def deserializeStack : JVal → Option (List Frame)
  | .jarr js => framesFromJson js
  | _ => none

/-- Decoding inverts encoding for access levels. -/
theorem accessFromJson_toJson (a : Access) :
    accessFromJson (accessToJson a) = some a := by
  cases a <;> rfl

/-- Decoding inverts encoding for email string lists. -/
theorem stringsFromJson_toJson (xs : List String) :
    stringsFromJson (xs.map JVal.jstr) = some xs := by
  induction xs with
  | nil => rfl
  | cons x xs ih => rw [List.map_cons, stringsFromJson, ih]

/-- Decoding inverts encoding for sharing attributes. -/
theorem sharingFromJson_toJson (s : Sharing) :
    sharingFromJson (sharingToJson s) = some s := by
  cases s
  rw [sharingToJson]
  simp only [stringsToJson, sharingFromJson, accessFromJson_toJson,
    stringsFromJson_toJson]

/-- Decoding inverts encoding for files. -/
theorem fileFromJson_toJson (f : DriveFile) :
    fileFromJson (fileToJson f) = some f := by
  cases f
  rw [fileToJson]
  simp only [fileFromJson, sharingFromJson_toJson]

/-- Decoding inverts encoding for file lists. -/
theorem filesFromJson_toJson (fs : List DriveFile) :
    filesFromJson (fs.map fileToJson) = some fs := by
  induction fs with
  | nil => rfl
  | cons f fs ih => rw [List.map_cons, filesFromJson, fileFromJson_toJson, ih]

mutual

/-- Decoding inverts encoding for folders. -/
theorem folderFromJson_toJson :
    ∀ t : DriveFolder, folderFromJson (folderToJson t) = some t
  | .mk n s fs ds => by
    rw [folderToJson, folderFromJson, sharingFromJson_toJson,
      filesFromJson_toJson, folderListFromJson_toJson ds]

/-- Decoding inverts encoding for folder lists. -/
theorem folderListFromJson_toJson :
    ∀ ts : List DriveFolder,
      folderListFromJson (folderListToJson ts) = some ts
  | [] => rfl
  | t :: ts => by
    rw [folderListToJson, folderListFromJson, folderFromJson_toJson t,
      folderListFromJson_toJson ts]

end

/-- Decoding inverts encoding for nullable file tokens (including `null`). -/
theorem fileTokenFromJson_toJson (tok : Option (List DriveFile)) :
    fileTokenFromJson (fileTokenToJson tok) = some tok := by
  cases tok with
  | none => rfl
  | some fs =>
    rw [fileTokenToJson, fileTokenFromJson, filesFromJson_toJson]

/-- Decoding inverts encoding for nullable folder tokens (including
`null`). -/
theorem folderTokenFromJson_toJson (tok : Option (List DriveFolder)) :
    folderTokenFromJson (folderTokenToJson tok) = some tok := by
  cases tok with
  | none => rfl
  | some ds =>
    rw [folderTokenToJson, folderTokenFromJson, folderListFromJson_toJson]

/-- Decoding inverts encoding for a single frame; both `null` and non-`null`
token fields survive the round trip. -/
theorem frameFromJson_toJson (fr : Frame) :
    frameFromJson (frameToJson fr) = some fr := by
  cases fr
  rw [frameToJson, frameFromJson, fileTokenFromJson_toJson,
    folderTokenFromJson_toJson]

/-- Decoding inverts encoding for frame lists, preserving order. -/
theorem framesFromJson_toJson (frs : List Frame) :
    framesFromJson (frs.map frameToJson) = some frs := by
  induction frs with
  | nil => rfl
  | cons fr frs ih =>
    rw [List.map_cons, framesFromJson, frameFromJson_toJson, ih]

/-- Deserializing a serialized iterator stack reproduces the stack
exactly. -/
theorem deserializeStack_serializeStack (stack : List Frame) :
    deserializeStack (serializeStack stack) = some stack := by
  rw [serializeStack, deserializeStack, framesFromJson_toJson]

/-- A list with a last element is some list followed by that element. -/
theorem exists_concat_of_getLast?_eq_some :
    ∀ {s : List Frame} {top : Frame}, s.getLast? = some top →
      ∃ bs, s = bs ++ [top]
  | [], top => by intro h; simp at h
  | [a], top => by
    intro h
    simp only [List.getLast?_singleton, Option.some.injEq] at h
    exact ⟨[], by simp [h]⟩
  | a :: b :: t, top => by
    intro h
    rw [List.getLast?_cons_cons] at h
    obtain ⟨bs, hbs⟩ := exists_concat_of_getLast?_eq_some h
    exact ⟨a :: bs, by simp [hbs]⟩

/-- `stackWeight` distributes over appending a single frame. -/
theorem stackWeight_concat (bs : List Frame) (fr : Frame) :
    stackWeight (bs ++ [fr]) = stackWeight bs + frameWeight fr := by
  simp [stackWeight]

/-- `treeSteps` unfolded through the field accessors. -/
theorem treeSteps_eq (t : DriveFolder) :
    treeSteps t = t.files.length + 1 + treeStepsList t.folders +
      t.folders.length + 1 := by
  cases t
  rw [treeSteps]
  rfl

/-- The frame freshly made from a folder stands for exactly the steps of
that folder's subtree. -/
theorem frameWeight_makeIterationFromFolder (t : DriveFolder) :
    frameWeight (makeIterationFromFolder t) = treeSteps t := by
  cases t
  rw [treeSteps]
  simp [frameWeight, makeIterationFromFolder, DriveFolder.files,
    DriveFolder.folders]
  omega

/-- `listFilesAndFolders` on a stack whose active frame still has a file in
its file iterator: classify the file, append its row when shared, advance
the file token. -/
theorem step_eq_file_next (effectiveUserMail : String) (bs : List Frame)
    (n : String) (file : DriveFile) (rest : List DriveFile)
    (dt : Option (List DriveFolder)) :
    listFilesAndFolders effectiveUserMail
        (bs ++ [⟨n, some (file :: rest), dt⟩]) =
      .ok (bs ++ [⟨n, some rest, dt⟩],
        if getSharingAccess effectiveUserMail file.sharing ≠ "Private" then
          [⟨String.intercalate "/" (bs.map (fun it => it.folderName) ++ [n])
              ++ file.name, "File",
            getSharingAccess effectiveUserMail file.sharing⟩]
        else []) := by
  simp [listFilesAndFolders, List.getLast?_concat, List.dropLast_concat]

/-- `listFilesAndFolders` when the active frame's file iterator has no next
file: set the file token to `null`, append nothing. -/
theorem step_eq_file_done (effectiveUserMail : String) (bs : List Frame)
    (n : String) (dt : Option (List DriveFolder)) :
    listFilesAndFolders effectiveUserMail (bs ++ [⟨n, some [], dt⟩]) =
      .ok (bs ++ [⟨n, none, dt⟩], []) := by
  simp [listFilesAndFolders, List.getLast?_concat, List.dropLast_concat]

/-- `listFilesAndFolders` when the file token is `null` and the folder
iterator still has a subfolder: classify it, append its row when shared,
advance the folder token and push the subfolder's frame. -/
theorem step_eq_folder_next (effectiveUserMail : String) (bs : List Frame)
    (n : String) (folder : DriveFolder) (rest : List DriveFolder) :
    listFilesAndFolders effectiveUserMail
        (bs ++ [⟨n, none, some (folder :: rest)⟩]) =
      .ok ((bs ++ [⟨n, none, some rest⟩]) ++ [makeIterationFromFolder folder],
        if getSharingAccess effectiveUserMail folder.sharing ≠ "Private" then
          [⟨String.intercalate "/" (bs.map (fun it => it.folderName) ++ [n])
              ++ folder.name, "Folder",
            getSharingAccess effectiveUserMail folder.sharing⟩]
        else []) := by
  simp [listFilesAndFolders, List.getLast?_concat, List.dropLast_concat]

/-- `listFilesAndFolders` when the file token is `null` and the folder
iterator has no next subfolder: pop the frame, append nothing. -/
theorem step_eq_folder_done (effectiveUserMail : String) (bs : List Frame)
    (n : String) :
    listFilesAndFolders effectiveUserMail (bs ++ [⟨n, none, some []⟩]) =
      .ok (bs, []) := by
  simp [listFilesAndFolders, List.getLast?_concat, List.dropLast_concat]

/-- `listFilesAndFolders` when both tokens of the active frame are `null`:
the iterator-failure exception is thrown. -/
theorem step_eq_failure (effectiveUserMail : String) (bs : List Frame)
    (n : String) :
    listFilesAndFolders effectiveUserMail (bs ++ [⟨n, none, none⟩]) =
      .error "Should never get here. Iterator failure!" := by
  simp [listFilesAndFolders, List.getLast?_concat, List.dropLast_concat]

/-- Every successful `listFilesAndFolders` step decreases the stack weight
by exactly one. -/
theorem step_weight {effectiveUserMail : String} {s s' : List Frame}
    {recs : List Record}
    (h : listFilesAndFolders effectiveUserMail s = .ok (s', recs)) :
    stackWeight s = stackWeight s' + 1 := by
  match hlast : s.getLast? with
  | none =>
    rw [listFilesAndFolders.eq_def, hlast] at h
    exact absurd h (by simp)
  | some top =>
    obtain ⟨bs, rfl⟩ := exists_concat_of_getLast?_eq_some hlast
    obtain ⟨n, ft, dt⟩ := top
    match ft, dt with
    | some (file :: rest), dt =>
      rw [step_eq_file_next] at h
      simp only [Except.ok.injEq, Prod.mk.injEq] at h
      rw [← h.1, stackWeight_concat, stackWeight_concat]
      cases dt <;> simp [frameWeight]
      all_goals omega
    | some [], dt =>
      rw [step_eq_file_done] at h
      simp only [Except.ok.injEq, Prod.mk.injEq] at h
      rw [← h.1, stackWeight_concat, stackWeight_concat]
      cases dt <;> simp [frameWeight]
      all_goals omega
    | none, some (folder :: rest) =>
      rw [step_eq_folder_next] at h
      simp only [Except.ok.injEq, Prod.mk.injEq] at h
      rw [← h.1, stackWeight_concat, stackWeight_concat,
        stackWeight_concat, frameWeight_makeIterationFromFolder]
      have ht := treeSteps_eq folder
      simp only [frameWeight, treeStepsList, List.length_cons]
      omega
    | none, some [] =>
      rw [step_eq_folder_done] at h
      simp only [Except.ok.injEq, Prod.mk.injEq] at h
      rw [← h.1, stackWeight_concat]
      simp [frameWeight, treeStepsList]
    | none, none =>
      rw [step_eq_failure] at h
      exact absurd h (by simp)

/-- The state `main` reads and writes around the engine: the single user
property slot holding the persisted checkpoint, the `B3` iteration-finished
cell, and the rows appended to the report sheet. -/
structure RunState where
  checkpoint : Option JVal
  iterationFinished : String
  rows : List Record

/-- The `while (recursiveIterator.length > 0)` loop of `main`, lines
128–144 of the source.  `budgetHit k` models
`elapsedTimeInMS >= MAX_EXECUTION_TIME_IN_MS` as observed after the `k`-th
step.  On budget exhaustion the current iterator (whatever its length) is
serialized into the property slot and the finished cell is set to `"no"`;
when the loop exits because the iterator is empty, the property is deleted
and the cell is set to `"yes"`. -/
def mainLoop (effectiveUserMail : String) (budgetHit : Nat → Bool) (k : Nat)
    (recursiveIterator : List Frame) (st : RunState) :
    Except String RunState :=
  if recursiveIterator.length > 0 then
    match h : listFilesAndFolders effectiveUserMail recursiveIterator with
    | .error e => .error e
    | .ok (s1, recs) =>
      let st1 : RunState := { st with rows := st.rows ++ recs }
      if budgetHit k then
        .ok { st1 with checkpoint := some (serializeStack s1),
                       iterationFinished := "no" }
      else
        mainLoop effectiveUserMail budgetHit (k + 1) s1 st1
  else
    .ok { st with checkpoint := none, iterationFinished := "yes" }
termination_by stackWeight recursiveIterator
decreasing_by
  have hw := step_weight h
  omega

/-- `true` exactly when the parsed value is not JavaScript `null`
(`recursiveIterator !== null`). -/
def JVal.isNotNull : JVal → Bool
  | .jnull => false
  | _ => true

/-- The loop body of `getFolderByPath`: walk the remaining path segments,
taking the first subfolder whose name matches each segment
(`currentFolder.getFoldersByName(folderName)`). -/
def getFolderByPathLoop : DriveFolder → List String → Option DriveFolder
  | currentFolder, [] => some currentFolder
  | currentFolder, folderName :: rest =>
    match currentFolder.folders.find? (fun f => f.name == folderName) with
    | some subfolder => getFolderByPathLoop subfolder rest
    | none => none -- Folder not found

/-- JavaScript `path.split('/')`: split the character sequence at `/`,
keeping empty segments (`"".split('/')` is `[""]`). -/
def splitAtSlash : List Char → List Char → List String
  | [], acc => [String.mk acc.reverse]
  | c :: cs, acc =>
    if c = '/' then String.mk acc.reverse :: splitAtSlash cs []
    else splitAtSlash cs (c :: acc)

/-- `getFolderByPath(path)` from the source: split the path at `/` and walk
the segments from the root folder. -/
def getFolderByPath (rootFolder : DriveFolder) (path : String) :
    Option DriveFolder :=
  getFolderByPathLoop rootFolder (splitAtSlash path.data [])

/-- The outcome of `prepareIteration`: the in-memory recursive iterator (an
untyped JavaScript value, since the resume branch uses whatever
`JSON.parse` returned without validation) and whether a new report sheet
was inserted (`createNewSheet`, `true`) or the existing one continued
(`updateSheet`, `false`). -/
structure PrepResult where
  recursiveIterator : JVal
  newSheet : Bool

/-- `prepareIteration(spreadsheet)` from the source.  `persistedProperty` is
the value stored under `RECURSIVE_ITERATOR_KEY` (`none` when absent; note
`JSON.parse(null)` evaluates to `null`).  A failing path resolution makes
`makeIterationFromFolder(null)` throw. -/
def prepareIteration (forceNewIteration : Bool) (startFolderPath : String)
    (persistedProperty : Option JVal) (rootFolder : DriveFolder) :
    Except String PrepResult :=
  let recursiveIterator := persistedProperty.getD JVal.jnull
  if forceNewIteration = true then
    -- [Force new iteration] Start new iteration from Google Drive root folder
    .ok ⟨.jarr [frameToJson (makeIterationFromFolder rootFolder)], true⟩
  else
    if startFolderPath ≠ "" then
      -- [Start folder given] Start new iteration from the given folder
      match getFolderByPath rootFolder startFolderPath with
      | some folder =>
        .ok ⟨.jarr [frameToJson (makeIterationFromFolder folder)], true⟩
      | none =>
        .error "TypeError: Cannot read properties of null (reading getName)"
    else
      if recursiveIterator.isNotNull then
        -- [Use persisted iterator] Resume iteration
        .ok ⟨recursiveIterator, false⟩
      else
        -- [Persisted iterator empty] Start new iteration from the root
        .ok ⟨.jarr [frameToJson (makeIterationFromFolder rootFolder)], true⟩

/-- Composing two successful step runs gives a successful longer run with
concatenated row lists. -/
theorem runSteps_add_ok {effectiveUserMail : String} {m n : Nat}
    {s s1 s2 : List Frame} {r1 r2 : List Record}
    (h1 : runSteps effectiveUserMail m s = .ok (s1, r1))
    (h2 : runSteps effectiveUserMail n s1 = .ok (s2, r2)) :
    runSteps effectiveUserMail (m + n) s = .ok (s2, r1 ++ r2) := by
  induction m generalizing s r1 with
  | zero =>
    rw [runSteps] at h1
    simp only [Except.ok.injEq, Prod.mk.injEq] at h1
    rw [Nat.zero_add, h1.1, h2, ← h1.2]
    simp
  | succ m ih =>
    rw [runSteps] at h1
    match hstep : listFilesAndFolders effectiveUserMail s with
    | .error e =>
      rw [hstep] at h1
      simp only at h1
      exact absurd h1 (by simp)
    | .ok (sa, ra) =>
      rw [hstep] at h1
      simp only at h1
      match hrest : runSteps effectiveUserMail m sa with
      | .error e =>
        rw [hrest] at h1
        simp only at h1
        exact absurd h1 (by simp)
      | .ok (sb, rb) =>
        rw [hrest] at h1
        simp only [Except.ok.injEq, Prod.mk.injEq] at h1
        obtain ⟨hsb, hrb⟩ := h1
        subst hsb
        have hmid := ih hrest
        rw [Nat.succ_add, runSteps, hstep]
        simp only
        rw [hmid]
        simp only
        rw [← hrb]
        simp

/-- A single-step run is just one call of `listFilesAndFolders`. -/
theorem runSteps_one {effectiveUserMail : String} {s s1 : List Frame}
    {r1 : List Record}
    (h : listFilesAndFolders effectiveUserMail s = .ok (s1, r1)) :
    runSteps effectiveUserMail 1 s = .ok (s1, r1) := by
  show runSteps effectiveUserMail (0 + 1) s = .ok (s1, r1)
  rw [runSteps, h]
  simp only
  rw [runSteps]
  simp

/-- Draining the file iterator of the active frame: one step per remaining
file, appending exactly the shared files with the stack's path prefix, and
leaving an empty file iterator. -/
theorem drainFiles (effectiveUserMail : String) :
    ∀ (fs : List DriveFile) (bs : List Frame) (n : String)
      (dt : Option (List DriveFolder)),
    runSteps effectiveUserMail fs.length (bs ++ [⟨n, some fs, dt⟩]) =
      .ok (bs ++ [⟨n, some [], dt⟩], fs.filterMap (fun file =>
        let access := getSharingAccess effectiveUserMail file.sharing
        if access ≠ "Private" then
          some ⟨String.intercalate "/"
              (bs.map (fun it => it.folderName) ++ [n]) ++ file.name,
            "File", access⟩
        else none))
  | [], bs, n, dt => by rw [List.length_nil, runSteps, List.filterMap_nil]
  | file :: rest, bs, n, dt => by
    have hstep := step_eq_file_next effectiveUserMail bs n file rest dt
    have hrest := drainFiles effectiveUserMail rest bs n dt
    have hall := runSteps_add_ok (runSteps_one hstep) hrest
    rw [Nat.add_comm 1 rest.length] at hall
    rw [List.length_cons, List.filterMap_cons]
    by_cases hc : getSharingAccess effectiveUserMail file.sharing = "Private"
    · simp only [hc] at hall ⊢
      simpa using hall
    · simp [hc] at hall ⊢
      exact hall

mutual

/-- Draining one folder's frame: starting from any base stack with the
folder's fresh frame on top, exactly `treeSteps` calls of
`listFilesAndFolders` return to the base stack having appended exactly the
rows of `emitTree` (files first, then subfolders each followed by its fully
drained subtree). -/
theorem drainTree (effectiveUserMail : String) :
    ∀ (t : DriveFolder) (bs : List Frame),
    runSteps effectiveUserMail (treeSteps t)
        (bs ++ [makeIterationFromFolder t]) =
      .ok (bs, emitTree effectiveUserMail
        (bs.map (fun it => it.folderName)) t)
  | .mk n s fs ds, bs => by
    have hfiles := drainFiles effectiveUserMail fs bs n (some ds)
    have hdone :=
      runSteps_one (step_eq_file_done effectiveUserMail bs n (some ds))
    have hchildren := drainChildren effectiveUserMail ds bs n
    have h1 := runSteps_add_ok hdone hchildren
    have h2 := runSteps_add_ok hfiles h1
    have hN : treeSteps (.mk n s fs ds) =
        fs.length + (1 + (treeStepsList ds + ds.length + 1)) := by
      rw [treeSteps]; omega
    rw [hN, emitTree]
    simp only [makeIterationFromFolder, DriveFolder.name, DriveFolder.files,
      DriveFolder.folders]
    simpa using h2

/-- Enumerating the remaining subfolders of a frame whose file iterator is
exhausted: each subfolder costs one discovery step plus its full subtree,
and a final step pops the frame, appending exactly the `emitChildren`
rows. -/
theorem drainChildren (effectiveUserMail : String) :
    ∀ (ds : List DriveFolder) (bs : List Frame) (n : String),
    runSteps effectiveUserMail (treeStepsList ds + ds.length + 1)
        (bs ++ [⟨n, none, some ds⟩]) =
      .ok (bs, emitChildren effectiveUserMail
        (bs.map (fun it => it.folderName) ++ [n]) ds)
  | [], bs, n => by
    have hpop := runSteps_one (step_eq_folder_done effectiveUserMail bs n)
    rw [treeStepsList, emitChildren]
    simpa using hpop
  | d :: rest, bs, n => by
    have hstep :=
      runSteps_one (step_eq_folder_next effectiveUserMail bs n d rest)
    have hsub := drainTree effectiveUserMail d (bs ++ [⟨n, none, some rest⟩])
    have hrest := drainChildren effectiveUserMail rest bs n
    have h1 := runSteps_add_ok hsub hrest
    have h2 := runSteps_add_ok hstep h1
    have hN : treeStepsList (d :: rest) + (d :: rest).length + 1 =
        1 + (treeSteps d + (treeStepsList rest + rest.length + 1)) := by
      rw [treeStepsList, List.length_cons]; omega
    rw [hN, emitChildren]
    simp only [List.map_append, List.map_cons, List.map_nil] at h2
    simpa using h2

end

mutual

/-- The steps needed to drain a folder split exactly into leaf-page
advances, child-page advances and pops. -/
theorem treeSteps_eq_counts :
    ∀ t : DriveFolder,
      treeSteps t = leafPageAdvances t + childPageAdvances t + popOps t
  | .mk n s fs ds => by
    have h := treeStepsList_eq_counts ds
    rw [treeSteps, leafPageAdvances, childPageAdvances, popOps]
    omega

/-- List version of `treeSteps_eq_counts`. -/
theorem treeStepsList_eq_counts :
    ∀ ds : List DriveFolder,
      treeStepsList ds =
        leafPageAdvancesList ds + childPageAdvancesList ds + popOpsList ds
  | [] => by
    rw [treeStepsList, leafPageAdvancesList, childPageAdvancesList,
      popOpsList]
  | d :: rest => by
    have h1 := treeSteps_eq_counts d
    have h2 := treeStepsList_eq_counts rest
    rw [treeStepsList, leafPageAdvancesList, childPageAdvancesList,
      popOpsList]
    omega

end

/-- Inversion of a successful run of `m + 1` steps into its first step and
the remaining `m` steps. -/
theorem runSteps_succ_inv {effectiveUserMail : String} {m : Nat}
    {s s2 : List Frame} {r : List Record}
    (h : runSteps effectiveUserMail (m + 1) s = .ok (s2, r)) :
    ∃ sa ra rb, listFilesAndFolders effectiveUserMail s = .ok (sa, ra) ∧
      runSteps effectiveUserMail m sa = .ok (s2, rb) ∧ r = ra ++ rb := by
  rw [runSteps] at h
  match hstep : listFilesAndFolders effectiveUserMail s with
  | .error e =>
    rw [hstep] at h
    simp only at h
    exact absurd h (by simp)
  | .ok (sa, ra) =>
    rw [hstep] at h
    simp only at h
    match hrest : runSteps effectiveUserMail m sa with
    | .error e =>
      rw [hrest] at h
      simp only at h
      exact absurd h (by simp)
    | .ok (sb, rb) =>
      rw [hrest] at h
      simp only [Except.ok.injEq, Prod.mk.injEq] at h
      exact ⟨sa, ra, rb, rfl, by rw [hrest, h.1], h.2.symm⟩

/-- A successful run of `m` steps decreases the stack weight by exactly
`m`. -/
theorem runSteps_weight {effectiveUserMail : String} {m : Nat}
    {s s' : List Frame} {r : List Record}
    (h : runSteps effectiveUserMail m s = .ok (s', r)) :
    stackWeight s = stackWeight s' + m := by
  induction m generalizing s r with
  | zero =>
    rw [runSteps] at h
    simp only [Except.ok.injEq, Prod.mk.injEq] at h
    rw [h.1]
    omega
  | succ m ih =>
    obtain ⟨sa, ra, rb, hstep, hrest, -⟩ := runSteps_succ_inv h
    have h1 := step_weight hstep
    have h2 := ih hrest
    omega

/-- A successful long run restricts to a successful shorter run on any
prefix of its step count. -/
theorem runSteps_prefix_ok {effectiveUserMail : String} {m n : Nat}
    {s s2 : List Frame} {r : List Record}
    (h : runSteps effectiveUserMail (m + n) s = .ok (s2, r)) :
    ∃ s1 r1, runSteps effectiveUserMail m s = .ok (s1, r1) := by
  induction m generalizing s r with
  | zero => exact ⟨s, [], by rw [runSteps]⟩
  | succ m ih =>
    rw [Nat.succ_add] at h
    obtain ⟨sa, ra, rb, hstep, hrest, -⟩ := runSteps_succ_inv h
    obtain ⟨s1, r1, hmid⟩ := ih hrest
    refine ⟨s1, ra ++ r1, ?_⟩
    have hall := runSteps_add_ok (runSteps_one hstep) hmid
    rwa [Nat.add_comm] at hall

/-- `getSharingAccess` only ever returns `"Shared"` or `"Private"`. -/
theorem getSharingAccess_dichotomy (effectiveUserMail : String)
    (item : Sharing) :
    getSharingAccess effectiveUserMail item = "Shared" ∨
      getSharingAccess effectiveUserMail item = "Private" := by
  rw [getSharingAccess]
  split_ifs <;> simp

/-- The sharing attributes of the node the next `listFilesAndFolders` call
on this stack would classify: the head of the active frame's file iterator,
or (when the file token is `null`) the head of its folder iterator; `none`
when the call yields no node (empty stack, exhaustion or pop steps). -/
def yieldedSharing (stack : List Frame) : Option Sharing :=
  match stack.getLast? with
  | none => none
  | some top =>
    match top.fileIteratorContinuationToken with
    | some (file :: _) => some file.sharing
    | some [] => none
    | none =>
      match top.folderIteratorContinuationToken with
      | some (folder :: _) => some folder.sharing
      | _ => none

/-- C5: the classification predicate returns `"Private"` iff the sharing
access level is `PRIVATE`, the owner is the acting principal, and every
viewer and every editor is the acting principal; under any other condition
it returns `"Shared"`. -/
theorem c5_classification (effectiveUserMail : String) (item : Sharing) :
    (getSharingAccess effectiveUserMail item = "Private" ↔
      (item.access = Access.PRIVATE ∧ item.ownerEmail = effectiveUserMail ∧
       (∀ v ∈ item.viewerEmails, v = effectiveUserMail) ∧
       (∀ e ∈ item.editorEmails, e = effectiveUserMail))) ∧
    (getSharingAccess effectiveUserMail item = "Shared" ↔
      ¬(item.access = Access.PRIVATE ∧ item.ownerEmail = effectiveUserMail ∧
        (∀ v ∈ item.viewerEmails, v = effectiveUserMail) ∧
        (∀ e ∈ item.editorEmails, e = effectiveUserMail))) := by
  rw [getSharingAccess]
  split_ifs with h1 h2 h3 h4 <;>
    simp_all [List.any_eq_true]
  exact ⟨h3, h4⟩

/-- C8: invoking the step function on a stack whose top frame has both
continuation tokens `null` throws the iterator-failure error (so no row is
appended and the traversal does not silently continue). -/
theorem c8_both_tokens_null_fatal (effectiveUserMail : String)
    (bs : List Frame) (fr : Frame)
    (h1 : fr.fileIteratorContinuationToken = none)
    (h2 : fr.folderIteratorContinuationToken = none) :
    listFilesAndFolders effectiveUserMail (bs ++ [fr]) =
      .error "Should never get here. Iterator failure!" := by
  obtain ⟨n, ft, dt⟩ := fr
  simp only at h1 h2
  subst h1
  subst h2
  exact step_eq_failure effectiveUserMail bs n

/-- Witness for C8 at a concrete desynchronized frame. -/
theorem c8_both_tokens_null_fatal_witness :
    listFilesAndFolders "me@mail" ([] ++ [⟨"root", none, none⟩]) =
      .error "Should never get here. Iterator failure!" :=
  c8_both_tokens_null_fatal "me@mail" [] ⟨"root", none, none⟩ rfl rfl

/-- C10: one successful step leaves every frame strictly below the top of
the input stack unchanged, and changes the stack length by at most one
(unchanged on a cursor advance, plus one on a push, minus one on a pop). -/
theorem c10_step_frame_effect (effectiveUserMail : String)
    {s s' : List Frame} {recs : List Record}
    (h : listFilesAndFolders effectiveUserMail s = .ok (s', recs)) :
    s'.take (s.length - 1) = s.take (s.length - 1) ∧
    (s'.length = s.length ∨ s'.length = s.length + 1 ∨
      s'.length + 1 = s.length) := by
  match hlast : s.getLast? with
  | none =>
    rw [listFilesAndFolders.eq_def, hlast] at h
    exact absurd h (by simp)
  | some top =>
    obtain ⟨bs, rfl⟩ := exists_concat_of_getLast?_eq_some hlast
    obtain ⟨n, ft, dt⟩ := top
    have hlen : (bs ++ [Frame.mk n ft dt]).length - 1 = bs.length := by simp
    match ft, dt with
    | some (file :: rest), dt =>
      rw [step_eq_file_next] at h
      simp only [Except.ok.injEq, Prod.mk.injEq] at h
      rw [← h.1, hlen]
      constructor
      · rw [List.take_left, List.take_left]
      · left; simp
    | some [], dt =>
      rw [step_eq_file_done] at h
      simp only [Except.ok.injEq, Prod.mk.injEq] at h
      rw [← h.1, hlen]
      constructor
      · rw [List.take_left, List.take_left]
      · left; simp
    | none, some (folder :: rest) =>
      rw [step_eq_folder_next] at h
      simp only [Except.ok.injEq, Prod.mk.injEq] at h
      rw [← h.1, hlen]
      constructor
      · rw [List.take_left, List.append_assoc,
          List.take_left]
      · right; left; simp
    | none, some [] =>
      rw [step_eq_folder_done] at h
      simp only [Except.ok.injEq, Prod.mk.injEq] at h
      rw [← h.1, hlen]
      constructor
      · rw [List.take_length, List.take_left]
      · right; right; simp
    | none, none =>
      rw [step_eq_failure] at h
      exact absurd h (by simp)

/-- Witness for C10 at a concrete pop step. -/
theorem c10_step_frame_effect_witness :
    (([] : List Frame).take
        (([⟨"root", none, some ([] : List DriveFolder)⟩] : List Frame).length - 1) =
      ([⟨"root", none, some ([] : List DriveFolder)⟩] : List Frame).take
        (([⟨"root", none, some ([] : List DriveFolder)⟩] : List Frame).length - 1)) ∧
    (([] : List Frame).length =
        ([⟨"root", none, some ([] : List DriveFolder)⟩] : List Frame).length ∨
      ([] : List Frame).length =
        ([⟨"root", none, some ([] : List DriveFolder)⟩] : List Frame).length + 1 ∨
      ([] : List Frame).length + 1 =
        ([⟨"root", none, some ([] : List DriveFolder)⟩] : List Frame).length) :=
  @c10_step_frame_effect "me@mail"
    [⟨"root", none, some []⟩] [] [] (by rfl)

/-- C6: each call of the step function appends at most one row; when the
call yields a node, a row is appended iff that node classifies `"Shared"`
(a `"Private"` node yields no row and no error), and calls that yield no
node (exhaustion and pop steps) append nothing. -/
theorem c6_zero_or_one_row (effectiveUserMail : String) (s : List Frame) :
    (∀ s' recs, listFilesAndFolders effectiveUserMail s = .ok (s', recs) →
      recs.length ≤ 1 ∧
      (match yieldedSharing s with
       | some sh =>
         (recs ≠ [] ↔ getSharingAccess effectiveUserMail sh = "Shared")
       | none => recs = [])) ∧
    (∀ sh, yieldedSharing s = some sh →
      (listFilesAndFolders effectiveUserMail s).isOk = true) := by
  match hlast : s.getLast? with
  | none =>
    constructor
    · intro s' recs h
      rw [listFilesAndFolders.eq_def, hlast] at h
      exact absurd h (by simp)
    · intro sh h
      rw [yieldedSharing.eq_def, hlast] at h
      exact absurd h (by simp)
  | some top =>
    obtain ⟨bs, rfl⟩ := exists_concat_of_getLast?_eq_some hlast
    obtain ⟨n, ft, dt⟩ := top
    match ft, dt with
    | some (file :: rest), dt =>
      have hyl : yieldedSharing
          (bs ++ [Frame.mk n (some (file :: rest)) dt]) =
          some file.sharing := by
        rw [yieldedSharing.eq_def, hlast]
      rw [hyl]
      constructor
      · intro s' recs h
        rw [step_eq_file_next] at h
        simp only [Except.ok.injEq, Prod.mk.injEq] at h
        rw [← h.2]
        rcases getSharingAccess_dichotomy effectiveUserMail file.sharing
          with hs | hs <;> simp [hs]
      · intro sh hsh
        rw [step_eq_file_next]
        rfl
    | some [], dt =>
      have hyl : yieldedSharing (bs ++ [Frame.mk n (some []) dt]) =
          none := by
        rw [yieldedSharing.eq_def, hlast]
      rw [hyl]
      constructor
      · intro s' recs h
        rw [step_eq_file_done] at h
        simp only [Except.ok.injEq, Prod.mk.injEq] at h
        rw [← h.2]
        exact ⟨by simp, rfl⟩
      · intro sh hsh
        exact absurd hsh (by simp)
    | none, some (folder :: rest) =>
      have hyl : yieldedSharing
          (bs ++ [Frame.mk n none (some (folder :: rest))]) =
          some folder.sharing := by
        rw [yieldedSharing.eq_def, hlast]
      rw [hyl]
      constructor
      · intro s' recs h
        rw [step_eq_folder_next] at h
        simp only [Except.ok.injEq, Prod.mk.injEq] at h
        rw [← h.2]
        rcases getSharingAccess_dichotomy effectiveUserMail folder.sharing
          with hs | hs <;> simp [hs]
      · intro sh hsh
        rw [step_eq_folder_next]
        rfl
    | none, some [] =>
      have hyl : yieldedSharing (bs ++ [Frame.mk n none (some [])]) =
          none := by
        rw [yieldedSharing.eq_def, hlast]
      rw [hyl]
      constructor
      · intro s' recs h
        rw [step_eq_folder_done] at h
        simp only [Except.ok.injEq, Prod.mk.injEq] at h
        rw [← h.2]
        exact ⟨by simp, rfl⟩
      · intro sh hsh
        exact absurd hsh (by simp)
    | none, none =>
      have hyl : yieldedSharing (bs ++ [Frame.mk n none none]) = none := by
        rw [yieldedSharing.eq_def, hlast]
      rw [hyl]
      constructor
      · intro s' recs h
        rw [step_eq_failure] at h
        exact absurd h (by simp)
      · intro sh hsh
        exact absurd hsh (by simp)

/-- Witness for C6 at a concrete step yielding a `"Private"` file: no row
is appended and the step succeeds. -/
theorem c6_zero_or_one_row_witness :
    (([] : List Record).length ≤ 1 ∧
      (match yieldedSharing
          [⟨"root", some [⟨"f", ⟨Access.PRIVATE, "me@mail", [], []⟩⟩],
            some []⟩] with
       | some sh =>
         (([] : List Record) ≠ [] ↔
           getSharingAccess "me@mail" sh = "Shared")
       | none => ([] : List Record) = [])) ∧
    (listFilesAndFolders "me@mail"
      [⟨"root", some [⟨"f", ⟨Access.PRIVATE, "me@mail", [], []⟩⟩],
        some []⟩]).isOk = true :=
  ⟨(c6_zero_or_one_row "me@mail"
      [⟨"root", some [⟨"f", ⟨Access.PRIVATE, "me@mail", [], []⟩⟩],
        some []⟩]).1
    [⟨"root", some [], some []⟩] [] (by rfl),
   (c6_zero_or_one_row "me@mail"
      [⟨"root", some [⟨"f", ⟨Access.PRIVATE, "me@mail", [], []⟩⟩],
        some []⟩]).2
    ⟨Access.PRIVATE, "me@mail", [], []⟩ (by rfl)⟩

/-- C1: suspend/resume is transparent: deserializing the serialized stack
reproduces every frame (all fields, including `null` tokens) in the same
order, and continuing from the round-tripped stack produces the same step
results and emitted rows as the uninterrupted run. -/
theorem c1_suspend_resume_transparent (effectiveUserMail : String) (n : Nat)
    (stack : List Frame) :
    deserializeStack (serializeStack stack) = some stack ∧
    (∀ stack2, deserializeStack (serializeStack stack) = some stack2 →
      runSteps effectiveUserMail n stack2 =
        runSteps effectiveUserMail n stack) := by
  refine ⟨deserializeStack_serializeStack stack, ?_⟩
  intro stack2 h
  rw [deserializeStack_serializeStack stack, Option.some.injEq] at h
  rw [h]

/-- Witness for C1 at a concrete suspended stack with a `null` file
token. -/
theorem c1_suspend_resume_transparent_witness :
    deserializeStack (serializeStack
        [⟨"root", none, some []⟩, ⟨"sub", some [], none⟩]) =
      some [⟨"root", none, some []⟩, ⟨"sub", some [], none⟩] ∧
    runSteps "me@mail" 1 [⟨"root", none, some []⟩, ⟨"sub", some [], none⟩] =
      runSteps "me@mail" 1 [⟨"root", none, some []⟩, ⟨"sub", some [], none⟩] :=
  ⟨(c1_suspend_resume_transparent "me@mail" 1
      [⟨"root", none, some []⟩, ⟨"sub", some [], none⟩]).1,
   (c1_suspend_resume_transparent "me@mail" 1
      [⟨"root", none, some []⟩, ⟨"sub", some [], none⟩]).2
     [⟨"root", none, some []⟩, ⟨"sub", some [], none⟩] (by rfl)⟩

/-- C4: while the active frame's file token is non-`null`, a step changes
only that token (the folder token, the rest of the frame and the rest of
the stack are untouched), so all leaf items are enumerated before the child
cursor is ever consulted; and a full run emits exactly the `emitTree` rows,
in which each subfolder's discovery row is followed by its fully drained
subtree before the next sibling. -/
theorem c4_leafs_before_children (effectiveUserMail : String)
    (t : DriveFolder) (bs : List Frame) (n : String) (fs : List DriveFile)
    (dt : Option (List DriveFolder)) :
    (∃ ft' recs, listFilesAndFolders effectiveUserMail
        (bs ++ [⟨n, some fs, dt⟩]) =
      .ok (bs ++ [⟨n, ft', dt⟩], recs)) ∧
    runSteps effectiveUserMail (treeSteps t)
        [makeIterationFromFolder t] =
      .ok ([], emitTree effectiveUserMail [] t) := by
  constructor
  · match fs with
    | [] => exact ⟨none, [], step_eq_file_done effectiveUserMail bs n dt⟩
    | file :: rest =>
      exact ⟨some rest, _, step_eq_file_next effectiveUserMail bs n file
        rest dt⟩
  · have h := drainTree effectiveUserMail t []
    simpa using h

/-- C9: with unlimited budget, the traversal of any finite tree reaches the
empty stack after exactly leaf-page-advances + child-page-advances + pops
steps, and at every earlier step count the stack is still nonempty. -/
theorem c9_termination_step_count (effectiveUserMail : String)
    (t : DriveFolder) :
    (∃ recs, runSteps effectiveUserMail
        (leafPageAdvances t + childPageAdvances t + popOps t)
        [makeIterationFromFolder t] = .ok ([], recs)) ∧
    (∀ m s recs,
      m < leafPageAdvances t + childPageAdvances t + popOps t →
      runSteps effectiveUserMail m [makeIterationFromFolder t] =
        .ok (s, recs) →
      s ≠ []) := by
  have hN := treeSteps_eq_counts t
  constructor
  · refine ⟨emitTree effectiveUserMail [] t, ?_⟩
    rw [← hN]
    have h := drainTree effectiveUserMail t []
    simpa using h
  · intro m s recs hm hrun hempty
    have hw := runSteps_weight hrun
    have hinit : stackWeight [makeIterationFromFolder t] = treeSteps t := by
      simp [stackWeight, frameWeight_makeIterationFromFolder]
    rw [hempty] at hw
    have hnil : stackWeight ([] : List Frame) = 0 := by
      simp [stackWeight]
    omega

/-- Witness for C9 at a concrete one-folder tree. -/
theorem c9_termination_step_count_witness :
    (∃ recs, runSteps "me@mail"
        (leafPageAdvances (.mk "root" ⟨Access.ANYONE, "me@mail", [], []⟩ [] [])
          + childPageAdvances
              (.mk "root" ⟨Access.ANYONE, "me@mail", [], []⟩ [] [])
          + popOps (.mk "root" ⟨Access.ANYONE, "me@mail", [], []⟩ [] []))
        [makeIterationFromFolder
          (.mk "root" ⟨Access.ANYONE, "me@mail", [], []⟩ [] [])] =
      .ok ([], recs)) ∧
    [makeIterationFromFolder
      (.mk "root" ⟨Access.ANYONE, "me@mail", [], []⟩ [] [])] ≠ [] :=
  ⟨(c9_termination_step_count "me@mail"
      (.mk "root" ⟨Access.ANYONE, "me@mail", [], []⟩ [] [])).1,
   (c9_termination_step_count "me@mail"
      (.mk "root" ⟨Access.ANYONE, "me@mail", [], []⟩ [] [])).2
     0 [makeIterationFromFolder
        (.mk "root" ⟨Access.ANYONE, "me@mail", [], []⟩ [] [])] []
     (by decide) (by rfl)⟩

/-- When the budget never expires, any successful invocation of the run
loop ends by deleting the checkpoint slot and writing `"yes"`.  (Strong
induction on the stack weight.) -/
theorem mainLoop_never_budget {effectiveUserMail : String}
    {budgetHit : Nat → Bool} (hb : ∀ j, budgetHit j = false) :
    ∀ (W k : Nat) (stack : List Frame) (st st' : RunState),
      stackWeight stack ≤ W →
      mainLoop effectiveUserMail budgetHit k stack st = .ok st' →
      st'.checkpoint = none ∧ st'.iterationFinished = "yes" := by
  intro W
  induction W with
  | zero =>
    intro k stack st st' hW hrun
    match stack with
    | [] =>
      rw [mainLoop] at hrun
      simp only [List.length_nil, gt_iff_lt, Nat.lt_irrefl, if_false,
        Except.ok.injEq] at hrun
      rw [← hrun]
      exact ⟨rfl, rfl⟩
    | fr :: rest =>
      rw [mainLoop] at hrun
      simp only [List.length_cons, gt_iff_lt, Nat.succ_pos, if_true] at hrun
      match hstep : listFilesAndFolders effectiveUserMail (fr :: rest) with
      | .error e =>
        rw [hstep] at hrun
        exact absurd hrun (by simp)
      | .ok (s1, recs) =>
        have hw := step_weight hstep
        exfalso
        omega
  | succ W ih =>
    intro k stack st st' hW hrun
    match stack with
    | [] =>
      rw [mainLoop] at hrun
      simp only [List.length_nil, gt_iff_lt, Nat.lt_irrefl, if_false,
        Except.ok.injEq] at hrun
      rw [← hrun]
      exact ⟨rfl, rfl⟩
    | fr :: rest =>
      rw [mainLoop] at hrun
      simp only [List.length_cons, gt_iff_lt, Nat.succ_pos, if_true] at hrun
      match hstep : listFilesAndFolders effectiveUserMail (fr :: rest) with
      | .error e =>
        rw [hstep] at hrun
        exact absurd hrun (by simp)
      | .ok (s1, recs) =>
        rw [hstep] at hrun
        simp only at hrun
        rw [hb k] at hrun
        simp only [Bool.false_eq_true, if_false] at hrun
        have hw := step_weight hstep
        refine ih (k + 1) s1 _ st' ?_ hrun
        omega

/-- C3 counterexample: a run in which the stack becomes empty (two steps
drain the empty root folder) but the budget expires on the very step that
empties the stack; the loop then serializes the empty stack into the
checkpoint slot and writes `"no"` — it neither deletes the checkpoint nor
writes `"yes"`, contradicting the claim. -/
theorem c3_counterexample :
    runSteps "me@mail" 2
        [makeIterationFromFolder
          (.mk "root" ⟨Access.ANYONE, "me@mail", [], []⟩ [] [])] =
      .ok ([], []) ∧
    mainLoop "me@mail" (fun k => decide (1 ≤ k)) 0
        [makeIterationFromFolder
          (.mk "root" ⟨Access.ANYONE, "me@mail", [], []⟩ [] [])]
        ⟨none, "running", []⟩ =
      .ok ⟨some (JVal.jarr []), "no", []⟩ ∧
    (some (JVal.jarr []) ≠ (none : Option JVal)) ∧ "no" ≠ "yes" := by
  refine ⟨by rfl, ?_, by simp, by decide⟩
  rw [mainLoop]
  simp only [makeIterationFromFolder, DriveFolder.name, DriveFolder.files,
    DriveFolder.folders, List.length_cons, List.length_nil]
  rw [show listFilesAndFolders "me@mail"
      [⟨"root", some [], some []⟩] =
      .ok ([⟨"root", none, some []⟩], []) from rfl]
  simp only
  norm_num
  rw [mainLoop]
  simp only [List.length_cons, List.length_nil]
  norm_num
  rw [show listFilesAndFolders "me@mail"
      [⟨"root", none, some []⟩] =
      .ok ([], []) from rfl]
  simp only
  norm_num [serializeStack]

/-- C3 amended: when the loop re-entry observes the empty stack — in
particular whenever the budget never expires — the run deletes the
persisted checkpoint and writes `"yes"`; but when the budget expires on the
very step that empties the stack, the serialized empty stack is written to
the checkpoint slot with flag `"no"` (see the counterexample). -/
theorem c3_amended_completion (effectiveUserMail : String)
    (budgetHit : Nat → Bool) (k : Nat) (st : RunState) :
    (mainLoop effectiveUserMail budgetHit k [] st =
      .ok ⟨none, "yes", st.rows⟩) ∧
    (∀ stack st', (∀ j, budgetHit j = false) →
      mainLoop effectiveUserMail budgetHit k stack st = .ok st' →
      st'.checkpoint = none ∧ st'.iterationFinished = "yes") := by
  constructor
  · rw [mainLoop]
    simp
  · intro stack st' hb hrun
    exact mainLoop_never_budget hb (stackWeight stack) k stack st st'
      (Nat.le_refl _) hrun

/-- Witness for C3's amended statement at a concrete empty-stack
invocation. -/
theorem c3_amended_completion_witness :
    (mainLoop "me@mail" (fun _ => false) 0 [] ⟨none, "running", []⟩ =
      .ok ⟨none, "yes", []⟩) ∧
    ((⟨none, "yes", []⟩ : RunState).checkpoint = none ∧
      (⟨none, "yes", []⟩ : RunState).iterationFinished = "yes") :=
  ⟨(c3_amended_completion "me@mail" (fun _ => false) 0
      ⟨none, "running", []⟩).1,
   (c3_amended_completion "me@mail" (fun _ => false) 0
      ⟨none, "running", []⟩).2 [] ⟨none, "yes", []⟩ (fun _ => rfl)
     (c3_amended_completion "me@mail" (fun _ => false) 0
       ⟨none, "running", []⟩).1⟩

/-- C7 counterexample: a corrupt (non-`null` but structurally invalid)
persisted checkpoint does not fall back to a fresh root start: the resume
branch is selected (`newSheet = false`) and the unvalidated corrupt value
becomes the iterator. -/
theorem c7_counterexample :
    prepareIteration false "" (some (JVal.jstr "corrupt"))
        (.mk "root" ⟨Access.ANYONE, "me@mail", [], []⟩ [] []) =
      .ok ⟨JVal.jstr "corrupt", false⟩ ∧
    deserializeStack (JVal.jstr "corrupt") = none ∧
    JVal.jstr "corrupt" ≠
      JVal.jarr [frameToJson (makeIterationFromFolder
        (.mk "root" ⟨Access.ANYONE, "me@mail", [], []⟩ [] []))] := by
  refine ⟨by rfl, by rfl, ?_⟩
  simp

/-- C7 amended: bootstrap selects exactly one start mode with precedence
force-fresh > explicit path > persisted value > fresh-root fallback; the
fresh modes insert a new sheet while resume continues the existing one; a
missing (or literal `null`) checkpoint falls back to a fresh root start,
while a corrupt non-`null` checkpoint is taken into the resume branch
unvalidated (and a failing path resolution throws). -/
theorem c7_bootstrap_precedence (rootFolder : DriveFolder)
    (startFolderPath : String) (persisted : Option JVal) :
    (prepareIteration true startFolderPath persisted rootFolder =
      .ok ⟨.jarr [frameToJson (makeIterationFromFolder rootFolder)],
        true⟩) ∧
    (startFolderPath ≠ "" →
      (∀ folder, getFolderByPath rootFolder startFolderPath = some folder →
        prepareIteration false startFolderPath persisted rootFolder =
          .ok ⟨.jarr [frameToJson (makeIterationFromFolder folder)],
            true⟩) ∧
      (getFolderByPath rootFolder startFolderPath = none →
        ∃ e, prepareIteration false startFolderPath persisted rootFolder =
          .error e)) ∧
    (∀ v, persisted = some v → v.isNotNull = true →
      prepareIteration false "" persisted rootFolder = .ok ⟨v, false⟩) ∧
    ((persisted = none ∨ persisted = some JVal.jnull) →
      prepareIteration false "" persisted rootFolder =
        .ok ⟨.jarr [frameToJson (makeIterationFromFolder rootFolder)],
          true⟩) := by
  refine ⟨by rfl, fun hpath => ⟨?_, ?_⟩, ?_, ?_⟩
  · intro folder hres
    simp [prepareIteration, hpath, hres]
  · intro hres
    exact ⟨"TypeError: Cannot read properties of null (reading getName)",
      by simp [prepareIteration, hpath, hres]⟩
  · intro v hv hnn
    simp [prepareIteration, hv, hnn]
  · intro hv
    rcases hv with hv | hv <;> simp [prepareIteration, hv, JVal.isNotNull]

/-- Witness for C7's amended statement: the three hypothesis-bearing modes
at concrete inputs (explicit path, resume from a non-`null` value, fallback
on a missing checkpoint). -/
theorem c7_bootstrap_precedence_witness :
    (prepareIteration false "sub" none
        (.mk "root" ⟨Access.ANYONE, "me@mail", [], []⟩ []
          [.mk "sub" ⟨Access.ANYONE, "me@mail", [], []⟩ [] []]) =
      .ok ⟨.jarr [frameToJson (makeIterationFromFolder
        (.mk "sub" ⟨Access.ANYONE, "me@mail", [], []⟩ [] []))], true⟩) ∧
    (prepareIteration false "" (some (JVal.jarr []))
        (.mk "root" ⟨Access.ANYONE, "me@mail", [], []⟩ []
          [.mk "sub" ⟨Access.ANYONE, "me@mail", [], []⟩ [] []]) =
      .ok ⟨JVal.jarr [], false⟩) ∧
    (prepareIteration false "" none
        (.mk "root" ⟨Access.ANYONE, "me@mail", [], []⟩ []
          [.mk "sub" ⟨Access.ANYONE, "me@mail", [], []⟩ [] []]) =
      .ok ⟨.jarr [frameToJson (makeIterationFromFolder
        (.mk "root" ⟨Access.ANYONE, "me@mail", [], []⟩ []
          [.mk "sub" ⟨Access.ANYONE, "me@mail", [], []⟩ [] []]))],
        true⟩) :=
  ⟨((c7_bootstrap_precedence
      (.mk "root" ⟨Access.ANYONE, "me@mail", [], []⟩ []
        [.mk "sub" ⟨Access.ANYONE, "me@mail", [], []⟩ [] []])
      "sub" none).2.1 (by decide)).1
    (.mk "sub" ⟨Access.ANYONE, "me@mail", [], []⟩ [] []) (by rfl),
   (c7_bootstrap_precedence
      (.mk "root" ⟨Access.ANYONE, "me@mail", [], []⟩ []
        [.mk "sub" ⟨Access.ANYONE, "me@mail", [], []⟩ [] []])
      "" (some (JVal.jarr []))).2.2.1 (JVal.jarr []) rfl rfl,
   (c7_bootstrap_precedence
      (.mk "root" ⟨Access.ANYONE, "me@mail", [], []⟩ []
        [.mk "sub" ⟨Access.ANYONE, "me@mail", [], []⟩ [] []])
      "" none).2.2.2 (Or.inl rfl)⟩

/-- C2 counterexample: for the claimed scenario — a root (named `"root"`)
containing shared leaf `"a.txt"` and a Private child container `"sub"`
containing shared leaf `"b.txt"` — the code emits `"roota.txt"` and
`"root/subb.txt"`: the joined frame path is concatenated directly with the
item's own name, with no separator in between, so the output differs from
the claimed `("a.txt", …)`, `("sub/b.txt", …)`. -/
theorem c2_counterexample :
    runSteps "me@mail" 7
        [makeIterationFromFolder
          (.mk "root" ⟨Access.PRIVATE, "me@mail", [], []⟩
            [⟨"a.txt", ⟨Access.ANYONE, "me@mail", [], []⟩⟩]
            [.mk "sub" ⟨Access.PRIVATE, "me@mail", [], []⟩
              [⟨"b.txt", ⟨Access.ANYONE, "me@mail", [], []⟩⟩] []])] =
      .ok ([], [⟨"roota.txt", "File", "Shared"⟩,
                ⟨"root/subb.txt", "File", "Shared"⟩]) ∧
    ([⟨"roota.txt", "File", "Shared"⟩,
      ⟨"root/subb.txt", "File", "Shared"⟩] : List Record) ≠
      [⟨"a.txt", "File", "Shared"⟩, ⟨"sub/b.txt", "File", "Shared"⟩] := by
  exact ⟨by rfl, by decide⟩

/-- C2 amended: an emitted row's path is the containing frames' names
joined by `/` concatenated directly with the node's own name (no separator
between them); in the scenario the run emits exactly
`("roota.txt", File, Shared)` then `("root/subb.txt", File, Shared)`, the
Private `"sub"` itself being omitted. -/
theorem c2_amended_path (effectiveUserMail : String) :
    (∀ (bs : List Frame) (n : String) (file : DriveFile)
        (rest : List DriveFile) (dt : Option (List DriveFolder)),
      getSharingAccess effectiveUserMail file.sharing ≠ "Private" →
      listFilesAndFolders effectiveUserMail
          (bs ++ [⟨n, some (file :: rest), dt⟩]) =
        .ok (bs ++ [⟨n, some rest, dt⟩],
          [⟨String.intercalate "/" (bs.map (fun it => it.folderName) ++ [n])
              ++ file.name, "File",
            getSharingAccess effectiveUserMail file.sharing⟩])) ∧
    (∀ (bs : List Frame) (n : String) (folder : DriveFolder)
        (rest : List DriveFolder),
      getSharingAccess effectiveUserMail folder.sharing ≠ "Private" →
      listFilesAndFolders effectiveUserMail
          (bs ++ [⟨n, none, some (folder :: rest)⟩]) =
        .ok ((bs ++ [⟨n, none, some rest⟩])
            ++ [makeIterationFromFolder folder],
          [⟨String.intercalate "/" (bs.map (fun it => it.folderName) ++ [n])
              ++ folder.name, "Folder",
            getSharingAccess effectiveUserMail folder.sharing⟩])) ∧
    runSteps "me@mail" 7
        [makeIterationFromFolder
          (.mk "root" ⟨Access.PRIVATE, "me@mail", [], []⟩
            [⟨"a.txt", ⟨Access.ANYONE, "me@mail", [], []⟩⟩]
            [.mk "sub" ⟨Access.PRIVATE, "me@mail", [], []⟩
              [⟨"b.txt", ⟨Access.ANYONE, "me@mail", [], []⟩⟩] []])] =
      .ok ([], [⟨"roota.txt", "File", "Shared"⟩,
                ⟨"root/subb.txt", "File", "Shared"⟩]) := by
  refine ⟨?_, ?_, by rfl⟩
  · intro bs n file rest dt hshared
    rw [step_eq_file_next, if_pos hshared]
  · intro bs n folder rest hshared
    rw [step_eq_folder_next, if_pos hshared]

/-- Witness for C2's amended statement at a concrete shared file step. -/
theorem c2_amended_path_witness :
    listFilesAndFolders "me@mail"
        ([] ++ [⟨"root",
          some [⟨"a.txt", ⟨Access.ANYONE, "me@mail", [], []⟩⟩], some []⟩]) =
      .ok ([] ++ [⟨"root", some [], some []⟩],
        [⟨String.intercalate "/"
            (([] : List Frame).map (fun it => it.folderName) ++ ["root"])
            ++ "a.txt", "File",
          getSharingAccess "me@mail" ⟨Access.ANYONE, "me@mail", [], []⟩⟩]) :=
  (c2_amended_path "me@mail").1 [] "root"
    ⟨"a.txt", ⟨Access.ANYONE, "me@mail", [], []⟩⟩ [] (some []) (by decide)
